import Mathlib

/-!
Shallow embedding of the GPU graph buffer allocator
(`src/crates/ratchet-core/src/gpu/buffer_allocator.rs`) together with the
collaborating buffer pool and device-queue interface which the allocator
consumes.  The tensor graph is modelled by an inductive `Tensor` carrying
exactly the observations the allocator makes on each tensor: its id, its
resolvedness, its op's in-place capability and source list, its external
strong count, its byte size and its optional storage.

Rust panics (`unwrap`, out-of-bounds indexing) are modelled by explicit
`panicked` outcome constructors; fallible paths return error constructors.
Machine integers are modelled by `Nat` (no arithmetic here can overflow a
`u64` in the scenarios considered, and the allocator performs no wrapping
arithmetic).
-/

/-- A tensor identifier (`TensorId`). -/
abbrev TensorId := Nat

/-- `wgpu::BufferUsages` bit for COPY_SRC. -/
def BufferUsages.COPY_SRC : Nat := 4

/-- `wgpu::BufferUsages` bit for COPY_DST. -/
def BufferUsages.COPY_DST : Nat := 8

/-- `wgpu::BufferUsages` bit for UNIFORM. -/
def BufferUsages.UNIFORM : Nat := 64

/-- `wgpu::BufferUsages` bit for STORAGE. -/
def BufferUsages.STORAGE : Nat := 128

/-- Modelled from the spec: the conventional `standard()` usage preset is
STORAGE|COPY_SRC|COPY_DST (`BufferUsagesExt` is not part of the provided
sources). -/
def BufferUsages.standard : Nat :=
  BufferUsages.STORAGE ||| BufferUsages.COPY_SRC ||| BufferUsages.COPY_DST

/-- `BufferDescriptor { size, usage, mapped_at_creation }`; structural
equality, as in the source where it is the pool's cache key. -/
structure BufferDescriptor where
  size : Nat
  usage : Nat
  mapped_at_creation : Bool
  deriving DecidableEq, Repr

/-- `BufferDescriptor::new`. -/
def BufferDescriptor.new (size usage : Nat) (mapped : Bool) : BufferDescriptor :=
  ⟨size, usage, mapped⟩

/-- A pooled physical GPU buffer: a stable process-wide id plus the
descriptor it was created with. -/
structure PooledGPUBuffer where
  global_id : Nat
  descriptor : BufferDescriptor
  deriving DecidableEq, Repr

/-- Modelled from the spec: the `BufferPool` state (its Rust source is not
among the provided files) — a free map keyed by descriptor, a live map
keyed by global id, and a monotone id counter. -/
structure BufferPool where
  freeMap : List (BufferDescriptor × List PooledGPUBuffer)
  live : List (Nat × PooledGPUBuffer)
  nextId : Nat
  deriving DecidableEq, Repr

/-- Association-list lookup for the pool free map. -/
def poolFreeLookup : List (BufferDescriptor × List PooledGPUBuffer) → BufferDescriptor →
    Option (List PooledGPUBuffer)
  | [], _ => none
  | p :: rest, d => if p.1 = d then some p.2 else poolFreeLookup rest d

/-- Association-list update for the pool free map. -/
def poolFreeSet : List (BufferDescriptor × List PooledGPUBuffer) → BufferDescriptor →
    List PooledGPUBuffer → List (BufferDescriptor × List PooledGPUBuffer)
  | [], d, v => [(d, v)]
  | p :: rest, d, v => if p.1 = d then (d, v) :: rest else p :: poolFreeSet rest d v

/-- Modelled from the spec: `BufferPool::get` — lookup by id; a not-found
signal (here `none`) if the handle is unknown. -/
def BufferPool.get (p : BufferPool) (handle : Nat) : Option PooledGPUBuffer :=
  (p.live.lookup handle)

/-- Modelled from the spec: `BufferPool::get_or_create` — if the free map
has an entry for this exact descriptor, pop one, register it live and
return it; otherwise create a fresh buffer with a new monotone global id
and register it live. -/
def BufferPool.get_or_create (p : BufferPool) (desc : BufferDescriptor) :
    PooledGPUBuffer × BufferPool :=
  match poolFreeLookup p.freeMap desc with
  | some (b :: rest) =>
      (b, { p with freeMap := poolFreeSet p.freeMap desc rest,
                   live := (b.global_id, b) :: p.live })
  | _ =>
      let b : PooledGPUBuffer := ⟨p.nextId, desc⟩
      (b, { p with live := (b.global_id, b) :: p.live, nextId := p.nextId + 1 })

/-- A `GraphBuffer` is `Arc<PooledGPUBuffer>`: `arcId` identifies the Arc
allocation (clones share it), `buf` is the pooled buffer inside. -/
structure GraphBuffer where
  arcId : Nat
  buf : PooledGPUBuffer
  deriving DecidableEq, Repr

/-- Allocator-side state threaded through the embedding: the pool plus a
counter of Arc allocations used by `GraphBuffer::from`. -/
structure AllocState where
  pool : BufferPool
  nextArc : Nat
  deriving DecidableEq, Repr

/-- `GraphBuffer::from(PooledGPUBuffer)` — wraps the buffer in a fresh Arc. -/
def GraphBuffer.fromPooled (b : PooledGPUBuffer) (st : AllocState) :
    GraphBuffer × AllocState :=
  (⟨st.nextArc, b⟩, { st with nextArc := st.nextArc + 1 })

/-- `BufferAllocator::create_buffer` — thin passthrough to
`pool.get_or_create`, threading the pool state. -/
def BufferAllocator.create_buffer (st : AllocState) (desc : BufferDescriptor) :
    PooledGPUBuffer × AllocState :=
  let pr := st.pool.get_or_create desc
  (pr.1, { st with pool := pr.2 })

/-- Error kinds surfaced by the allocator in `allocate_cfg`
(`AllocatorError::BufferNotFound`, and the device error from `try_gpu` on
non-GPU storage). -/
inductive AllocErr where
  | bufferNotFound
  | notGpu
  deriving DecidableEq, Repr

/-- Observation space of a Rust call that can return a value, return an
error, or panic.  `BufferAllocator::get` has return type `PooledGPUBuffer`,
so its embedding can only ever produce `buffer` or `panicked`. -/
inductive GetOutcome where
  | buffer (b : PooledGPUBuffer)
  | error (e : AllocErr)
  | panicked
  deriving DecidableEq, Repr

/-- `BufferAllocator::get` — `self.pool.read().get(handle).unwrap()`.
The `unwrap` turns the pool's not-found signal into a panic. -/
def BufferAllocator.get (pool : BufferPool) (handle : Nat) : GetOutcome :=
  match pool.get handle with
  | some b => .buffer b
  | none => .panicked

/-- `UNIFORM_ALIGN` — modelled from the spec: 256 bytes (its defining
module is not among the provided sources). -/
def UNIFORM_ALIGN : Nat := 256

/-- Result of `create_uniform_init`: the buffer obtained from the pool,
the updated pool, and the recorded `queue().write_buffer` effect (offset
and bytes).  `blocking` records whether the call waited on the device
(`create_uniform_init` performs no submit/poll, unlike
`create_buffer_init`). -/
structure UniformInitResult where
  buffer : PooledGPUBuffer
  pool : BufferPool
  writeOffset : Nat
  writeBytes : List Nat
  blocking : Bool
  deriving DecidableEq, Repr

/-- `BufferAllocator::create_uniform_init` — resizes the byte vector to
`len + UNIFORM_ALIGN - len % UNIFORM_ALIGN` filling with zero bytes (the
new length always exceeds the old, so `Vec::resize` appends), builds a
UNIFORM|COPY_DST descriptor of exactly the padded length, obtains the
buffer from the pool and enqueues a non-blocking write at offset 0. -/
def create_uniform_init (uniform0 : List Nat) (pool : BufferPool) : UniformInitResult :=
  let n := uniform0.length
  let newLen := n + UNIFORM_ALIGN - n % UNIFORM_ALIGN
  let uniform := uniform0 ++ List.replicate (newLen - n) 0
  let desc := BufferDescriptor.new uniform.length
    (BufferUsages.UNIFORM ||| BufferUsages.COPY_DST) false
  let pr := pool.get_or_create desc
  { buffer := pr.1, pool := pr.2, writeOffset := 0, writeBytes := uniform,
    blocking := false }

/-- The scan loop of `graph_allocate`: walks the free list with its index,
tracking `closest_index` and `closest_size_diff`; a buffer is a candidate
when its descriptor size is at least the request, and it replaces the
tracked candidate only when its size difference is strictly smaller
(`map_or(true, |diff| size_diff < diff)`), so earlier indices win ties. -/
def bestFitLoop (required_size : Nat) :
    List GraphBuffer → Nat → Option Nat → Option Nat → Option Nat × Option Nat
  | [], _, closest_index, closest_size_diff => (closest_index, closest_size_diff)
  | buffer :: rest, idx, closest_index, closest_size_diff =>
    let current_size := buffer.buf.descriptor.size
    if required_size ≤ current_size then
      let size_diff := current_size - required_size
      if closest_size_diff.all (fun diff => decide (size_diff < diff)) then
        bestFitLoop required_size rest (idx + 1) (some idx) (some size_diff)
      else
        bestFitLoop required_size rest (idx + 1) closest_index closest_size_diff
    else
      bestFitLoop required_size rest (idx + 1) closest_index closest_size_diff

/-- Result of `graph_allocate`: the returned `GraphBuffer`, the free list
after the call, and the threaded allocator state. -/
structure GraphAllocResult where
  buffer : GraphBuffer
  free : List GraphBuffer
  st : AllocState
  deriving DecidableEq, Repr

/-- A junk default used only to model `Vec::remove` at an index the scan
already proved in bounds. -/
def defaultGraphBuffer : GraphBuffer := ⟨0, ⟨0, ⟨0, 0, false⟩⟩⟩

/-- `BufferAllocator::graph_allocate` — best-fit scan over the graph-local
free list; with the `RATCHET_DEBUG` environment variable set (`debug`),
always create a fresh buffer via the pool and leave `free` untouched;
otherwise remove and return the scanned candidate, or fall back to the
pool when no free buffer is large enough. -/
def graph_allocate (debug : Bool) (descriptor : BufferDescriptor)
    (free : List GraphBuffer) (st : AllocState) : GraphAllocResult :=
  let required_size := descriptor.size
  let scan := bestFitLoop required_size free 0 none none
  let closest_index := scan.1
  if debug then
    let cr := BufferAllocator.create_buffer st descriptor
    let gr := GraphBuffer.fromPooled cr.1 cr.2
    { buffer := gr.1, free := free, st := gr.2 }
  else
    match closest_index with
    | some idx =>
        { buffer := (free.get? idx).getD defaultGraphBuffer,
          free := free.eraseIdx idx, st := st }
    | none =>
        let cr := BufferAllocator.create_buffer st descriptor
        let gr := GraphBuffer.fromPooled cr.1 cr.2
        { buffer := gr.1, free := free, st := gr.2 }

/-- The tensor storage the allocator observes: either a live GPU buffer
(`try_gpu` succeeds) or CPU-resident storage (`try_gpu` errors). -/
inductive TensorStorage where
  | gpu (buf : PooledGPUBuffer)
  | cpu
  deriving DecidableEq, Repr

/-- A tensor as observed by the allocator: `tid` is `id()`, `resolved` is
`resolved()`, `supportsInplace` is `op().supports_inplace()`, `strongCount`
is `Arc::strong_count(&inner)` (the external-consumer oracle), `numBytes`
is `num_bytes()`, `storage` is `storage()`, and `srcs` is `op().srcs()`. -/
inductive Tensor where
  | mk (tid : TensorId) (resolved : Bool) (supportsInplace : Bool) (strongCount : Nat)
      (numBytes : Nat) (storage : Option TensorStorage) (srcs : List Tensor)
  deriving Repr

/-- `Tensor::id()`. -/
def Tensor.tid : Tensor → TensorId
  | .mk i _ _ _ _ _ _ => i

/-- `Tensor::resolved()`. -/
def Tensor.resolved : Tensor → Bool
  | .mk _ r _ _ _ _ _ => r

/-- `op().supports_inplace()`. -/
def Tensor.supportsInplace : Tensor → Bool
  | .mk _ _ s _ _ _ _ => s

/-- `Arc::strong_count(&t.inner)`. -/
def Tensor.strongCount : Tensor → Nat
  | .mk _ _ _ c _ _ _ => c

/-- `Tensor::num_bytes()`. -/
def Tensor.numBytes : Tensor → Nat
  | .mk _ _ _ _ n _ _ => n

/-- `Tensor::storage()`. -/
def Tensor.storage : Tensor → Option TensorStorage
  | .mk _ _ _ _ _ st _ => st

/-- `op().srcs()`. -/
def Tensor.srcs : Tensor → List Tensor
  | .mk _ _ _ _ _ _ s => s

/-- `BufferAllocator::determine_tensor_source` — loop upward through
`op().srcs()[0]` while the current tensor's op supports in-place and its
strong count is not greater than 1; `none` models the Rust panic of
indexing `srcs()[0]` on an op without sources. -/
def determine_tensor_source : Tensor → Option Tensor
  | .mk tid r inp sc nb st srcs =>
    let cant_inplace := !inp
    let multiple_consumers := decide (1 < sc)
    if cant_inplace || multiple_consumers then
      some (.mk tid r inp sc nb st srcs)
    else
      match srcs with
      | [] => none
      | s :: _ => determine_tensor_source s

/-- The assignments map (`FxHashMap<TensorId, GraphBuffer>`) modelled as an
association list with unique keys; only `get`, `insert` and entry counting
are ever performed on it. -/
def assignGet : List (TensorId × GraphBuffer) → TensorId → Option GraphBuffer
  | [], _ => none
  | p :: rest, k => if p.1 = k then some p.2 else assignGet rest k

/-- Removes every entry with the given key (at most one, given unique
keys). -/
def removeKey : List (TensorId × GraphBuffer) → TensorId → List (TensorId × GraphBuffer)
  | [], _ => []
  | p :: rest, k => if p.1 = k then removeKey rest k else p :: removeKey rest k

/-- Map insert: the new binding replaces any previous binding of the key
(the replaced `GraphBuffer` drops, as in `HashMap::insert`). -/
def assignInsert (a : List (TensorId × GraphBuffer)) (k : TensorId) (v : GraphBuffer) :
    List (TensorId × GraphBuffer) :=
  (k, v) :: removeKey a k

/-- Whether the map binds the key. -/
def hasKey (a : List (TensorId × GraphBuffer)) (k : TensorId) : Bool :=
  (assignGet a k).isSome

/-- `Arc::strong_count` of a `GraphBuffer`: the number of live clones of
the Arc, i.e. map entries plus free-list entries sharing its `arcId` (at
the points where the source reads the count, no other clone is alive). -/
def graphStrongCount (a : List (TensorId × GraphBuffer)) (free : List GraphBuffer)
    (arc : Nat) : Nat :=
  a.countP (fun p => p.2.arcId = arc) + free.countP (fun g => g.arcId = arc)

/-- Outcome of an intermediate allocation step: a value, a propagated
error, or a Rust panic. -/
inductive StepRes (α : Type) where
  | ok (a : α)
  | err (e : AllocErr)
  | panicked
  deriving DecidableEq, Repr

/-- The constant-seeding walk of `allocate_cfg` (the first
`execution_order.iter().rev()` loop): every resolved tensor must have GPU
storage, which is wrapped in a fresh `GraphBuffer` and inserted. -/
def seedConstsAux (st : AllocState) (assignments : List (TensorId × GraphBuffer)) :
    List Tensor → StepRes (List (TensorId × GraphBuffer) × AllocState)
  | [] => .ok (assignments, st)
  | t :: rest =>
    if t.resolved then
      match t.storage with
      | none => .err .bufferNotFound
      | some .cpu => .err .notGpu
      | some (.gpu b) =>
        let gr := GraphBuffer.fromPooled b st
        seedConstsAux gr.2 (assignInsert assignments t.tid gr.1) rest
    else
      seedConstsAux st assignments rest

/-- The output-seeding step of `allocate_cfg` (lines 171–187): resolve the
true source of the graph output; reuse its assignment if present, else
`graph_allocate` a standard-usage buffer of `output_source.num_bytes()`;
insert the obtained buffer under the output's id. -/
def seedOutput (debug : Bool) (output : Tensor)
    (assignments : List (TensorId × GraphBuffer)) (free : List GraphBuffer)
    (st : AllocState) :
    StepRes (List (TensorId × GraphBuffer) × List GraphBuffer × AllocState) :=
  match determine_tensor_source output with
  | none => .panicked
  | some output_source =>
    match assignGet assignments output_source.tid with
    | some gb => .ok (assignInsert assignments output.tid gb, free, st)
    | none =>
      let r := graph_allocate debug
        (BufferDescriptor.new output_source.numBytes BufferUsages.standard false)
        free st
      .ok (assignInsert assignments output.tid r.buffer, r.free, r.st)

/-- The per-tensor source loop of the main walk: for each source, resolve
its true source, allocate for it if unassigned (`entry(..).or_insert_with`),
then re-read the binding (`assignments[&id]`, a panic if absent) and
propagate the alias to the source's own id when they differ. -/
def processSources (debug : Bool) (assignments : List (TensorId × GraphBuffer))
    (free : List GraphBuffer) (st : AllocState) :
    List Tensor → StepRes (List (TensorId × GraphBuffer) × List GraphBuffer × AllocState)
  | [] => .ok (assignments, free, st)
  | source :: rest =>
    match determine_tensor_source source with
    | none => .panicked
    | some true_source =>
      let step :=
        match assignGet assignments true_source.tid with
        | some _ => (assignments, free, st)
        | none =>
          let r := graph_allocate debug
            (BufferDescriptor.new true_source.numBytes BufferUsages.standard false)
            free st
          (assignInsert assignments true_source.tid r.buffer, r.free, r.st)
      match assignGet step.1 true_source.tid with
      | none => .panicked
      | some just_allocated =>
        let a2 :=
          if true_source.tid ≠ source.tid then
            assignInsert step.1 source.tid just_allocated
          else step.1
        processSources debug a2 step.2.1 step.2.2 rest

/-- The main reverse walk of `allocate_cfg` (the second
`execution_order.iter().rev()` loop): skip resolved tensors, lease buffers
for each tensor's sources, then release the tensor's own buffer to the
free list when its strong count is exactly 1. -/
def mainWalkAux (debug : Bool) (assignments : List (TensorId × GraphBuffer))
    (free : List GraphBuffer) (st : AllocState) :
    List Tensor → StepRes (List (TensorId × GraphBuffer) × List GraphBuffer × AllocState)
  | [] => .ok (assignments, free, st)
  | t :: rest =>
    if t.resolved then
      mainWalkAux debug assignments free st rest
    else
      match processSources debug assignments free st t.srcs with
      | .err e => .err e
      | .panicked => .panicked
      | .ok (a1, f1, s1) =>
        let f2 :=
          match assignGet a1 t.tid with
          | some buf =>
            if graphStrongCount a1 f1 buf.arcId = 1 then f1 ++ [buf] else f1
          | none => f1
        mainWalkAux debug a1 f2 s1 rest

/-- Overall outcome of `allocate_cfg`: the returned assignments together
with the final graph-local free list and allocator state, a propagated
error, or a panic. -/
inductive AllocOutcome where
  | ok (assignments : List (TensorId × GraphBuffer)) (free : List GraphBuffer)
      (st : AllocState)
  | err (e : AllocErr)
  | panicked
  deriving DecidableEq, Repr

/-- `BufferAllocator::allocate_cfg` — seed constants (reverse walk), take
the last tensor as the graph output (`last().unwrap()` panics on an empty
order), seed the output's buffer, then run the main reverse walk. -/
def allocate_cfg (debug : Bool) (st : AllocState) (execution_order : List Tensor) :
    AllocOutcome :=
  match seedConstsAux st [] execution_order.reverse with
  | .err e => .err e
  | .panicked => .panicked
  | .ok (a0, st0) =>
    match execution_order.getLast? with
    | none => .panicked
    | some output =>
      match seedOutput debug output a0 [] st0 with
      | .err e => .err e
      | .panicked => .panicked
      | .ok (a1, f1, st1) =>
        match mainWalkAux debug a1 f1 st1 execution_order.reverse with
        | .err e => .err e
        | .panicked => .panicked
        | .ok (a2, f2, st2) => .ok a2 f2 st2

/-- Formalisation of the claims' validity notion for an execution order:
non-empty, and every tensor's sources appear (by id) earlier in the
sequence.  The last element is by definition the graph output. -/
def validOrderGo (seen : List TensorId) : List Tensor → Bool
  | [] => true
  | t :: rest =>
    t.srcs.all (fun s => seen.contains s.tid) && validOrderGo (t.tid :: seen) rest

/-- An execution order is valid when it is non-empty and sources precede
consumers. -/
def validOrderB (eo : List Tensor) : Bool :=
  !eo.isEmpty && validOrderGo [] eo

/-- Projection: did `allocate_cfg` return normally? -/
def AllocOutcome.isOk : AllocOutcome → Bool
  | .ok _ _ _ => true
  | _ => false

/-- Projection of the returned assignments (empty on error/panic). -/
def AllocOutcome.assignmentsOf : AllocOutcome → List (TensorId × GraphBuffer)
  | .ok a _ _ => a
  | _ => []

/-- Projection of the final free list (empty on error/panic). -/
def AllocOutcome.freeOf : AllocOutcome → List GraphBuffer
  | .ok _ f _ => f
  | _ => []

/-- Projection of the assignments out of a seeding/walk step. -/
def stepAssignments :
    StepRes (List (TensorId × GraphBuffer) × List GraphBuffer × AllocState) →
    List (TensorId × GraphBuffer)
  | .ok (a, _, _) => a
  | _ => []

/-- An initial, empty buffer pool. -/
def initPool : BufferPool := ⟨[], [], 0⟩

/-- An initial allocator state over the empty pool. -/
def initState : AllocState := ⟨initPool, 0⟩

/-- A free-list graph buffer of the given Arc id and byte size, standard
usage. -/
def gbOf (arc sz : Nat) : GraphBuffer :=
  ⟨arc, ⟨100 + arc, ⟨sz, BufferUsages.standard, false⟩⟩⟩

/-- Scenario C free list: buffers of sizes 2048, 8192 and 3072 bytes. -/
def scenarioCFree : List GraphBuffer := [gbOf 10 2048, gbOf 11 8192, gbOf 12 3072]

/-- A leaf tensor whose op does not support in-place (true source of the
in-place output below). -/
def exLeafA : Tensor := .mk 1 false false 1 4 none []

/-- A graph output whose op supports in-place, with a single consumer and
`exLeafA` as its only source. -/
def exInplaceOut : Tensor := .mk 2 false true 1 4 none [exLeafA]

/-- A tensor that is in the execution order but is neither resolved, nor
the output, nor a source of any tensor (a dead tensor). -/
def exDeadA : Tensor := .mk 1 false false 1 4 none []

/-- A source-less, non-in-place graph output. -/
def exPlainOut : Tensor := .mk 2 false false 1 4 none []

/-- The single tensor of the one-tensor graph used for the free-list
aliasing counterexample. -/
def exSoloOut : Tensor := .mk 7 false false 1 1024 none []

/-- Scenario F: leaf source of the branching in-place tensor. -/
def exFanS : Tensor := .mk 1 false false 1 8 none []

/-- Scenario F: tensor whose op supports in-place but which has two
consumers (strong count 2). -/
def exFanA : Tensor := .mk 2 false true 2 8 none [exFanS]

/-- Scenario F: first consumer of `exFanA`. -/
def exFanB : Tensor := .mk 3 false false 1 8 none [exFanA]

/-- Scenario F: second consumer of `exFanA`. -/
def exFanC : Tensor := .mk 4 false false 1 8 none [exFanA]

/-- Scenario F: graph output consuming both branches. -/
def exFanOut : Tensor := .mk 5 false false 1 8 none [exFanB, exFanC]

/-- The scenario F execution order. -/
def exFanOrder : List Tensor := [exFanS, exFanA, exFanB, exFanC, exFanOut]

/-- A non-in-place leaf used as the source of the resolved tensor below. -/
def exResolvedSrc : Tensor := .mk 2 false false 1 4 none []

/-- A resolved (pre-materialised) tensor whose op supports in-place and
which has a single consumer. -/
def exResolvedInplace : Tensor :=
  .mk 1 true true 1 4 (some (.gpu ⟨55, ⟨4, BufferUsages.standard, false⟩⟩)) [exResolvedSrc]

/-- Do two tensor ids map to buffers with distinct Arcs? -/
def differentBuffers (a : List (TensorId × GraphBuffer)) (i j : TensorId) : Bool :=
  match assignGet a i, assignGet a j with
  | some x, some y => x.arcId ≠ y.arcId
  | _, _ => false

/-- Is some buffer of the returned free list the same Arc as the buffer of
the given (output) tensor id in the returned assignments? -/
def freeSharesBuffer (out : AllocOutcome) (outputTid : TensorId) : Bool :=
  match out with
  | .ok a f _ =>
    match assignGet a outputTid with
    | some g => f.any (fun x => x.arcId = g.arcId)
    | none => false
  | _ => false

/-- A resolved constant tensor: no in-place support, GPU storage present. -/
def exConst : Tensor :=
  .mk 9 true false 1 4 (some (.gpu ⟨77, ⟨4, BufferUsages.standard, false⟩⟩)) []

/-- C10: `allocate_cfg` requires a non-empty execution order — on the
empty slice the constant-seeding loop does nothing and taking
`execution_order.last().unwrap()` panics, so the run never returns a
value; totality of the embedding thus needs the non-emptiness
precondition. -/
theorem allocate_cfg_empty_order_panics (debug : Bool) (st : AllocState) :
    allocate_cfg debug st [] = .panicked := rfl

/-- C7: with the `RATCHET_DEBUG` flag set, `graph_allocate` never reuses
from the graph-local free list: for every request it returns a buffer
freshly obtained from the pool wrapped in a new Arc, and the free list is
returned unchanged — including in scenario D, where the free list holds an
adequately-sized 3072-byte candidate for a 2560-byte request. -/
theorem graph_allocate_debug_never_reuses :
    (∀ (desc : BufferDescriptor) (free : List GraphBuffer) (st : AllocState),
      graph_allocate true desc free st =
        { buffer := ⟨st.nextArc, (st.pool.get_or_create desc).1⟩,
          free := free,
          st := ⟨(st.pool.get_or_create desc).2, st.nextArc + 1⟩ }) ∧
    (graph_allocate true (BufferDescriptor.new 2560 BufferUsages.standard false)
        scenarioCFree initState).free = scenarioCFree ∧
    (graph_allocate true (BufferDescriptor.new 2560 BufferUsages.standard false)
        scenarioCFree initState).buffer.buf =
      ⟨0, ⟨2560, BufferUsages.standard, false⟩⟩ := by
  refine ⟨fun desc free st => rfl, by decide, by decide⟩

/-- C9 counterexample: calling the allocator's `get` with a handle unknown
to the pool does not propagate `BufferNotFound` to the caller — the
`unwrap` in `get` panics instead (the function's return type has no error
channel at all). -/
theorem allocator_get_unknown_no_error_propagation :
    BufferAllocator.get initPool 42 ≠ GetOutcome.error AllocErr.bufferNotFound ∧
    BufferAllocator.get initPool 42 = GetOutcome.panicked := by
  decide

/-- C9 amended: for every handle not known to the pool, the allocator's
`get` panics on the `unwrap` of the pool's not-found result, rather than
returning a `PhysicalBuffer` or propagating an error value. -/
theorem allocator_get_unknown_panics (pool : BufferPool) (handle : Nat)
    (h : pool.get handle = none) :
    BufferAllocator.get pool handle = GetOutcome.panicked := by
  simp [BufferAllocator.get, h]

/-- Witness for the C9 amended theorem at a concrete unknown handle over
the empty pool. -/
theorem allocator_get_unknown_panics_witness :
    BufferPool.get initPool 42 = none ∧
    BufferAllocator.get initPool 42 = GetOutcome.panicked :=
  ⟨rfl, allocator_get_unknown_panics initPool 42 rfl⟩

/-- C5 counterexample: `determine_tensor_source` never consults
resolvedness.  A resolved (pre-materialised) tensor whose op supports
in-place and which has a single consumer does **not** terminate traversal:
the traversal steps to its first source (id 2) instead of returning the
tensor itself (id 1). -/
theorem determine_resolved_inplace_not_self :
    exResolvedInplace.resolved = true ∧
    exResolvedInplace.tid = 1 ∧
    (determine_tensor_source exResolvedInplace).map Tensor.tid = some 2 := by
  decide

/-- C5 amended: a resolved tensor terminates traversal immediately and is
returned unchanged provided its op does not support in-place (as holds for
constants) or it has more than one consumer; resolvedness itself is not
consulted by the loop. -/
theorem determine_resolved_noninplace_self (t : Tensor)
    (hres : t.resolved = true)
    (h : t.supportsInplace = false ∨ 1 < t.strongCount) :
    determine_tensor_source t = some t := by
  cases t with
  | mk tid r inp sc nb st srcs =>
    simp only [Tensor.supportsInplace, Tensor.strongCount] at h
    rcases h with h | h
    · subst h
      simp [determine_tensor_source.eq_def]
    · simp [determine_tensor_source.eq_def, Nat.lt_irrefl, h]

/-- Witness for the C5 amended theorem at a concrete resolved constant. -/
theorem determine_resolved_noninplace_self_witness :
    exConst.resolved = true ∧ determine_tensor_source exConst = some exConst :=
  ⟨rfl, determine_resolved_noninplace_self exConst rfl (Or.inl rfl)⟩

/-- C4: the in-place traversal (i) stops and returns the current tensor as
soon as its op does not support in-place or it has more than one consumer,
(ii) otherwise steps to `op().srcs()[0]`, and (iii) in the scenario-F graph
the in-place tensor with two consumers resolves to itself and is assigned
its own buffer, distinct from its source's buffer. -/
theorem determine_tensor_source_traversal :
    (∀ t : Tensor, t.supportsInplace = false ∨ 1 < t.strongCount →
      determine_tensor_source t = some t) ∧
    (∀ (t s : Tensor) (rest : List Tensor), t.supportsInplace = true →
      t.strongCount = 1 → t.srcs = s :: rest →
      determine_tensor_source t = determine_tensor_source s) ∧
    ((determine_tensor_source exFanA).map Tensor.tid = some exFanA.tid ∧
      differentBuffers (allocate_cfg false initState exFanOrder).assignmentsOf
        exFanA.tid exFanS.tid = true) := by
  refine ⟨?_, ?_, by decide⟩
  · intro t h
    cases t with
    | mk tid r inp sc nb st srcs =>
      simp only [Tensor.supportsInplace, Tensor.strongCount] at h
      rcases h with h | h
      · subst h
        simp [determine_tensor_source.eq_def]
      · simp [determine_tensor_source.eq_def, Nat.lt_irrefl, h]
  · intro t s rest hinp hsc hsrcs
    cases t with
    | mk tid r inp sc nb st srcs =>
      simp only [Tensor.supportsInplace, Tensor.strongCount, Tensor.srcs] at hinp hsc hsrcs
      subst hinp hsc hsrcs
      conv_lhs => rw [determine_tensor_source.eq_def]
      simp

/-- Witness for C4 at concrete tensors: the two-consumer in-place tensor
stops the traversal at itself, and a single-consumer in-place tensor steps
to its first source. -/
theorem determine_tensor_source_traversal_witness :
    determine_tensor_source exFanA = some exFanA ∧
    determine_tensor_source exInplaceOut = determine_tensor_source exLeafA :=
  ⟨determine_tensor_source_traversal.1 exFanA (Or.inr (by decide)),
   determine_tensor_source_traversal.2.1 exInplaceOut exLeafA [] rfl rfl rfl⟩

/-- Modelled from the spec: the pool data-model invariant — every buffer
parked under a descriptor key in the free map carries that descriptor. -/
def poolWF (p : BufferPool) : Bool :=
  p.freeMap.all (fun e => e.2.all (fun b => b.descriptor = e.1))

/-- Buffers found under a key of a well-formed free map carry that key as
their descriptor. -/
theorem poolFreeLookup_wf (l : List (BufferDescriptor × List PooledGPUBuffer))
    (d : BufferDescriptor) (bs : List PooledGPUBuffer)
    (hwf : l.all (fun e => e.2.all (fun b => b.descriptor = e.1)) = true)
    (h : poolFreeLookup l d = some bs) :
    bs.all (fun b => b.descriptor = d) = true := by
  induction l with
  | nil => simp [poolFreeLookup] at h
  | cons p rest ih =>
    simp only [List.all_cons, Bool.and_eq_true] at hwf
    simp only [poolFreeLookup] at h
    by_cases hd : p.1 = d
    · rw [if_pos hd] at h
      cases h
      rw [← hd]
      exact hwf.1
    · rw [if_neg hd] at h
      exact ih hwf.2 h

/-- Over a well-formed pool, a buffer obtained from `get_or_create`
carries exactly the requested descriptor. -/
theorem get_or_create_descriptor (p : BufferPool) (d : BufferDescriptor)
    (hwf : poolWF p = true) :
    ((p.get_or_create d).1).descriptor = d := by
  unfold BufferPool.get_or_create
  rcases hm : poolFreeLookup p.freeMap d with _ | bs
  · simp
  · cases bs with
    | nil => simp
    | cons b rest =>
      have hall := poolFreeLookup_wf p.freeMap d (b :: rest) hwf hm
      simp only [List.all_cons, Bool.and_eq_true, decide_eq_true_eq] at hall
      simp [hall.1]

set_option maxRecDepth 4000 in
/-- C6 counterexample: an input whose length is already a multiple of the
256-byte uniform alignment is not padded to the next multiple in the
round-up sense — a 256-byte input yields a 512-byte buffer, not a 256-byte
one, because the code computes `len + ALIGN - len % ALIGN`. -/
theorem create_uniform_init_aligned_input_overpads :
    (List.replicate 256 (0 : Nat)).length % UNIFORM_ALIGN = 0 ∧
    (create_uniform_init (List.replicate 256 0) initPool).buffer.descriptor.size = 512 := by
  decide

/-- C6 amended: `create_uniform_init` pads the byte vector with zero bytes
to length `len + 256 - len % 256` — the smallest multiple of the 256-byte
alignment *strictly greater* than `len` (which coincides with the round-up
for lengths not already aligned) — allocates a buffer of exactly that
padded size with usage UNIFORM|COPY_DST, and writes the padded contents at
offset 0 without blocking; for a 100-byte input the buffer is 256 bytes,
bytes [0..100) are the payload and [100..256) are zero. -/
theorem create_uniform_init_spec (u : List Nat) (pool : BufferPool)
    (hwf : poolWF pool = true) :
    (create_uniform_init u pool).writeBytes =
      u ++ List.replicate (UNIFORM_ALIGN - u.length % UNIFORM_ALIGN) 0 ∧
    (create_uniform_init u pool).writeBytes.length =
      u.length + UNIFORM_ALIGN - u.length % UNIFORM_ALIGN ∧
    (create_uniform_init u pool).writeBytes.length % UNIFORM_ALIGN = 0 ∧
    u.length < (create_uniform_init u pool).writeBytes.length ∧
    (create_uniform_init u pool).buffer.descriptor.size =
      (create_uniform_init u pool).writeBytes.length ∧
    (create_uniform_init u pool).buffer.descriptor.usage =
      (BufferUsages.UNIFORM ||| BufferUsages.COPY_DST) ∧
    (create_uniform_init u pool).writeOffset = 0 ∧
    (create_uniform_init u pool).blocking = false ∧
    (u.length = 100 →
      (create_uniform_init u pool).buffer.descriptor.size = 256 ∧
      (create_uniform_init u pool).writeBytes.take 100 = u ∧
      (create_uniform_init u pool).writeBytes.drop 100 = List.replicate 156 0) := by
  have hk : u.length + UNIFORM_ALIGN - u.length % UNIFORM_ALIGN - u.length =
      UNIFORM_ALIGN - u.length % UNIFORM_ALIGN := by
    simp only [UNIFORM_ALIGN]
    omega
  have hw : (create_uniform_init u pool).writeBytes =
      u ++ List.replicate (UNIFORM_ALIGN - u.length % UNIFORM_ALIGN) 0 := by
    simp [create_uniform_init, hk]
  have hlen : (create_uniform_init u pool).writeBytes.length =
      u.length + UNIFORM_ALIGN - u.length % UNIFORM_ALIGN := by
    rw [hw]
    simp only [List.length_append, List.length_replicate, UNIFORM_ALIGN]
    omega
  have hdesc : (create_uniform_init u pool).buffer.descriptor =
      BufferDescriptor.new
        (u ++ List.replicate
          (u.length + UNIFORM_ALIGN - u.length % UNIFORM_ALIGN - u.length) 0).length
        (BufferUsages.UNIFORM ||| BufferUsages.COPY_DST) false := by
    simp only [create_uniform_init]
    exact get_or_create_descriptor pool _ hwf
  have hdlen : (create_uniform_init u pool).buffer.descriptor.size =
      (create_uniform_init u pool).writeBytes.length := by
    rw [hdesc, hw]
    simp only [BufferDescriptor.new, List.length_append, List.length_replicate]
    omega
  refine ⟨hw, hlen, ?_, ?_, hdlen, ?_, rfl, rfl, ?_⟩
  · rw [hlen]
    simp only [UNIFORM_ALIGN]
    omega
  · rw [hlen]
    simp only [UNIFORM_ALIGN]
    omega
  · rw [hdesc]
    rfl
  · intro h100
    refine ⟨?_, ?_, ?_⟩
    · rw [hdlen, hlen, h100]
      decide
    · rw [hw, ← h100, List.take_left]
    · rw [hw, ← h100, List.drop_left, h100]
      simp [UNIFORM_ALIGN]

/-- Witness for the C6 amended theorem at the 100-byte scenario-E input
over the empty (well-formed) pool. -/
theorem create_uniform_init_spec_witness :
    poolWF initPool = true ∧
    (create_uniform_init (List.replicate 100 7) initPool).buffer.descriptor.size = 256 ∧
    (create_uniform_init (List.replicate 100 7) initPool).writeBytes.take 100 =
      List.replicate 100 7 ∧
    (create_uniform_init (List.replicate 100 7) initPool).writeBytes.drop 100 =
      List.replicate 156 0 := by
  have h := (create_uniform_init_spec (List.replicate 100 7) initPool rfl).2.2.2.2.2.2.2.2
    (by simp)
  exact ⟨rfl, h.1, h.2.1, h.2.2⟩

/-- If the scan loop ends with a selected index, that selection is either
the accumulator it started from or an adequate buffer of the remaining
list, at its absolute index, with its size difference. -/
theorem bestFitLoop_mem (req : Nat) :
    ∀ (l : List GraphBuffer) (idx : Nat) (ci cd : Option Nat) (i d : Nat),
      bestFitLoop req l idx ci cd = (some i, some d) →
      (ci = some i ∧ cd = some d) ∨
      (∃ k g, l.get? k = some g ∧ i = idx + k ∧ req ≤ g.buf.descriptor.size ∧
        d = g.buf.descriptor.size - req) := by
  intro l
  induction l with
  | nil =>
    intro idx ci cd i d h
    simp only [bestFitLoop] at h
    rw [Prod.mk.injEq] at h
    exact Or.inl h
  | cons b rest ih =>
    intro idx ci cd i d h
    simp only [bestFitLoop] at h
    by_cases hadq : req ≤ b.buf.descriptor.size
    · rw [if_pos hadq] at h
      cases hrep : (cd.all fun diff => decide (b.buf.descriptor.size - req < diff)) with
      | true =>
        rw [hrep] at h
        simp only [if_true] at h
        rcases ih (idx + 1) (some idx) (some (b.buf.descriptor.size - req)) i d h with
          ⟨h1, h2⟩ | ⟨k, g, hg, hi, ha, hd⟩
        · injection h1 with h1
          injection h2 with h2
          exact Or.inr ⟨0, b, rfl, by omega, hadq, h2.symm⟩
        · exact Or.inr ⟨k + 1, g, by simpa using hg, by omega, ha, hd⟩
      | false =>
        rw [hrep] at h
        simp only [Bool.false_eq_true, if_false] at h
        rcases ih (idx + 1) ci cd i d h with hacc | ⟨k, g, hg, hi, ha, hd⟩
        · exact Or.inl hacc
        · exact Or.inr ⟨k + 1, g, by simpa using hg, by omega, ha, hd⟩
    · rw [if_neg hadq] at h
      rcases ih (idx + 1) ci cd i d h with hacc | ⟨k, g, hg, hi, ha, hd⟩
      · exact Or.inl hacc
      · exact Or.inr ⟨k + 1, g, by simpa using hg, by omega, ha, hd⟩

/-- Started from a populated accumulator, the scan loop always ends with a
selected index. -/
theorem bestFitLoop_some (req : Nat) :
    ∀ (l : List GraphBuffer) (idx i0 d0 : Nat),
      ∃ i d, bestFitLoop req l idx (some i0) (some d0) = (some i, some d) := by
  intro l
  induction l with
  | nil =>
    intro idx i0 d0
    exact ⟨i0, d0, rfl⟩
  | cons b rest ih =>
    intro idx i0 d0
    simp only [bestFitLoop]
    by_cases hadq : req ≤ b.buf.descriptor.size
    · rw [if_pos hadq]
      cases hrep : ((some d0).all fun diff => decide (b.buf.descriptor.size - req < diff)) with
      | true =>
        rw [if_pos rfl]
        exact ih (idx + 1) idx (b.buf.descriptor.size - req)
      | false =>
        rw [if_neg Bool.false_ne_true]
        exact ih (idx + 1) i0 d0
    · rw [if_neg hadq]
      exact ih (idx + 1) i0 d0

/-- The scan loop only ever improves on a populated accumulator: the final
size difference is strictly smaller, or the accumulator is returned
unchanged. -/
theorem bestFitLoop_improves (req : Nat) :
    ∀ (l : List GraphBuffer) (idx i0 d0 i d : Nat),
      bestFitLoop req l idx (some i0) (some d0) = (some i, some d) →
      d < d0 ∨ (d = d0 ∧ i = i0) := by
  intro l
  induction l with
  | nil =>
    intro idx i0 d0 i d h
    simp only [bestFitLoop] at h
    rw [Prod.mk.injEq] at h
    injection h.1 with h1
    injection h.2 with h2
    exact Or.inr ⟨h2.symm, h1.symm⟩
  | cons b rest ih =>
    intro idx i0 d0 i d h
    simp only [bestFitLoop] at h
    by_cases hadq : req ≤ b.buf.descriptor.size
    · rw [if_pos hadq] at h
      cases hrep : ((some d0).all fun diff => decide (b.buf.descriptor.size - req < diff)) with
      | true =>
        rw [hrep, if_pos rfl] at h
        have hlt : b.buf.descriptor.size - req < d0 := by
          simpa using hrep
        rcases ih (idx + 1) idx (b.buf.descriptor.size - req) i d h with h1 | ⟨h1, _⟩
        · exact Or.inl (by omega)
        · exact Or.inl (by omega)
      | false =>
        rw [hrep, if_neg Bool.false_ne_true] at h
        exact ih (idx + 1) i0 d0 i d h
    · rw [if_neg hadq] at h
      exact ih (idx + 1) i0 d0 i d h

/-- Minimality with first-index tie-breaking: if some adequate buffer sits
at position `k` of the remaining list, the scan ends with a selection
whose size difference beats that buffer's, or ties it with an index not
beyond `idx + k`; the accumulator, if populated, records an index below
`idx`. -/
theorem bestFitLoop_minimal (req : Nat) :
    ∀ (l : List GraphBuffer) (idx : Nat) (ci cd : Option Nat),
      ((ci = none ∧ cd = none) ∨ (∃ i0 d0, ci = some i0 ∧ cd = some d0 ∧ i0 < idx)) →
      ∀ (k : Nat) (g : GraphBuffer),
        l.get? k = some g → req ≤ g.buf.descriptor.size →
        ∃ i d, bestFitLoop req l idx ci cd = (some i, some d) ∧
          (d < g.buf.descriptor.size - req ∨
            (d = g.buf.descriptor.size - req ∧ i ≤ idx + k)) := by
  intro l
  induction l with
  | nil =>
    intro idx ci cd hacc k g hk
    simp at hk
  | cons b rest ih =>
    intro idx ci cd hacc k g hk hadqg
    simp only [bestFitLoop]
    cases k with
    | zero =>
      simp only [List.get?] at hk
      injection hk with hk
      subst hk
      rw [if_pos hadqg]
      cases hrep : (cd.all fun diff => decide (b.buf.descriptor.size - req < diff)) with
      | true =>
        rw [if_pos rfl]
        obtain ⟨i, d, hfin⟩ :=
          bestFitLoop_some req rest (idx + 1) idx (b.buf.descriptor.size - req)
        rcases bestFitLoop_improves req rest (idx + 1) idx (b.buf.descriptor.size - req)
            i d hfin with h1 | ⟨h1, h2⟩
        · exact ⟨i, d, hfin, Or.inl h1⟩
        · exact ⟨i, d, hfin, Or.inr ⟨h1, by omega⟩⟩
      | false =>
        rw [if_neg Bool.false_ne_true]
        rcases hacc with ⟨hci, hcd⟩ | ⟨i0, d0, hci, hcd, hlt⟩
        · subst hcd
          simp at hrep
        · subst hci hcd
          have hnlt : ¬ (b.buf.descriptor.size - req < d0) := by
            simpa using hrep
          obtain ⟨i, d, hfin⟩ := bestFitLoop_some req rest (idx + 1) i0 d0
          rcases bestFitLoop_improves req rest (idx + 1) i0 d0 i d hfin with h1 | ⟨h1, h2⟩
          · exact ⟨i, d, hfin, Or.inl (by omega)⟩
          · rcases Nat.lt_or_ge d0 (b.buf.descriptor.size - req) with hc | hc
            · exact ⟨i, d, hfin, Or.inl (by omega)⟩
            · exact ⟨i, d, hfin, Or.inr ⟨by omega, by omega⟩⟩
    | succ k0 =>
      simp only [List.get?] at hk
      have haccS : ∀ j, idx < j → ((ci = none ∧ cd = none) ∨
          (∃ i0 d0, ci = some i0 ∧ cd = some d0 ∧ i0 < j)) := by
        intro j hj
        rcases hacc with ⟨hci, hcd⟩ | ⟨i0, d0, hci, hcd, hlt⟩
        · exact Or.inl ⟨hci, hcd⟩
        · exact Or.inr ⟨i0, d0, hci, hcd, by omega⟩
      by_cases hadq : req ≤ b.buf.descriptor.size
      · rw [if_pos hadq]
        cases hrep : (cd.all fun diff => decide (b.buf.descriptor.size - req < diff)) with
        | true =>
          rw [if_pos rfl]
          obtain ⟨i, d, hfin, hres⟩ := ih (idx + 1) (some idx)
            (some (b.buf.descriptor.size - req))
            (Or.inr ⟨idx, b.buf.descriptor.size - req, rfl, rfl, by omega⟩) k0 g hk hadqg
          refine ⟨i, d, hfin, ?_⟩
          rcases hres with h1 | ⟨h1, h2⟩
          · exact Or.inl h1
          · exact Or.inr ⟨h1, by omega⟩
        | false =>
          rw [if_neg Bool.false_ne_true]
          obtain ⟨i, d, hfin, hres⟩ := ih (idx + 1) ci cd (haccS (idx + 1) (by omega))
            k0 g hk hadqg
          refine ⟨i, d, hfin, ?_⟩
          rcases hres with h1 | ⟨h1, h2⟩
          · exact Or.inl h1
          · exact Or.inr ⟨h1, by omega⟩
      · rw [if_neg hadq]
        obtain ⟨i, d, hfin, hres⟩ := ih (idx + 1) ci cd (haccS (idx + 1) (by omega))
          k0 g hk hadqg
        refine ⟨i, d, hfin, ?_⟩
        rcases hres with h1 | ⟨h1, h2⟩
        · exact Or.inl h1
        · exact Or.inr ⟨h1, by omega⟩

/-- When every buffer in the list is inadequate, the scan returns its
accumulator unchanged. -/
theorem bestFitLoop_all_small (req : Nat) :
    ∀ (l : List GraphBuffer) (idx : Nat) (ci cd : Option Nat),
      (∀ g ∈ l, g.buf.descriptor.size < req) →
      bestFitLoop req l idx ci cd = (ci, cd) := by
  intro l
  induction l with
  | nil =>
    intro idx ci cd hall
    rfl
  | cons b rest ih =>
    intro idx ci cd hall
    simp only [bestFitLoop]
    rw [if_neg (by have := hall b (by simp); omega)]
    exact ih (idx + 1) ci cd (fun g hg => hall g (by simp [hg]))

/-- C3: without the debug flag, `graph_allocate` (i) whenever the free
list holds an adequately-sized buffer, returns a free-list buffer of
minimal size difference to the request — ties broken by earliest index —
and removes exactly that buffer from the free list, leaving the pool
state untouched; (ii) when no free buffer is large enough, obtains a
fresh buffer from the pool and leaves the free list unchanged; (iii) in
scenario C, with free sizes [2048, 8192, 3072] and a 2560-byte request,
the 3072-byte buffer is returned and the free list becomes [2048, 8192]. -/
theorem graph_allocate_best_fit :
    (∀ (desc : BufferDescriptor) (free : List GraphBuffer) (st : AllocState)
      (k : Nat) (g : GraphBuffer),
      free.get? k = some g → desc.size ≤ g.buf.descriptor.size →
      ∃ i gsel,
        free.get? i = some gsel ∧
        (graph_allocate false desc free st).buffer = gsel ∧
        (graph_allocate false desc free st).free = free.eraseIdx i ∧
        (graph_allocate false desc free st).st = st ∧
        desc.size ≤ gsel.buf.descriptor.size ∧
        (∀ (j : Nat) (h : GraphBuffer), free.get? j = some h →
          desc.size ≤ h.buf.descriptor.size →
          gsel.buf.descriptor.size - desc.size < h.buf.descriptor.size - desc.size ∨
            (gsel.buf.descriptor.size - desc.size = h.buf.descriptor.size - desc.size ∧
              i ≤ j))) ∧
    (∀ (desc : BufferDescriptor) (free : List GraphBuffer) (st : AllocState),
      (∀ g ∈ free, g.buf.descriptor.size < desc.size) →
      graph_allocate false desc free st =
        { buffer := ⟨st.nextArc, (st.pool.get_or_create desc).1⟩,
          free := free,
          st := ⟨(st.pool.get_or_create desc).2, st.nextArc + 1⟩ }) ∧
    ((graph_allocate false (BufferDescriptor.new 2560 BufferUsages.standard false)
        scenarioCFree initState).buffer = gbOf 12 3072 ∧
      (graph_allocate false (BufferDescriptor.new 2560 BufferUsages.standard false)
        scenarioCFree initState).free = [gbOf 10 2048, gbOf 11 8192] ∧
      (graph_allocate false (BufferDescriptor.new 2560 BufferUsages.standard false)
        scenarioCFree initState).st = initState) := by
  refine ⟨?_, ?_, by decide⟩
  · intro desc free st k g hk hadq
    obtain ⟨i, d, hscan, hmin⟩ := bestFitLoop_minimal desc.size free 0 none none
      (Or.inl ⟨rfl, rfl⟩) k g hk hadq
    rcases bestFitLoop_mem desc.size free 0 none none i d hscan with
      ⟨hci, _⟩ | ⟨k0, gsel, hget, hi, hadq0, hd⟩
    · exact absurd hci (by simp)
    · have hi0 : i = k0 := by omega
      subst hi0
      refine ⟨i, gsel, hget, ?_, ?_, ?_, hadq0, ?_⟩
      · simp only [graph_allocate, hscan]
        simp only [List.get?_eq_getElem?] at hget
        simp [hget]
      · simp only [graph_allocate, hscan]
        simp
      · simp only [graph_allocate, hscan]
        simp
      · intro j h hj hadqj
        obtain ⟨i2, d2, hscan2, hmin2⟩ := bestFitLoop_minimal desc.size free 0 none none
          (Or.inl ⟨rfl, rfl⟩) j h hj hadqj
        rw [hscan] at hscan2
        rw [Prod.mk.injEq] at hscan2
        injection hscan2.1 with h1
        injection hscan2.2 with h2
        subst h1 h2
        rcases hmin2 with hm | ⟨hm1, hm2⟩
        · exact Or.inl (by omega)
        · exact Or.inr ⟨by omega, by omega⟩
  · intro desc free st hall
    have hscan := bestFitLoop_all_small desc.size free 0 none none hall
    simp only [graph_allocate, hscan]
    rfl

/-- Witness for C3: instantiates the selection part at scenario C (the
3072-byte buffer at index 2 is adequate for the 2560-byte request) and
the fallback part at an empty free list. -/
theorem graph_allocate_best_fit_witness :
    (∃ i gsel,
      scenarioCFree.get? i = some gsel ∧
      (graph_allocate false (BufferDescriptor.new 2560 BufferUsages.standard false)
        scenarioCFree initState).buffer = gsel ∧
      (graph_allocate false (BufferDescriptor.new 2560 BufferUsages.standard false)
        scenarioCFree initState).free = scenarioCFree.eraseIdx i ∧
      (graph_allocate false (BufferDescriptor.new 2560 BufferUsages.standard false)
        scenarioCFree initState).st = initState ∧
      2560 ≤ gsel.buf.descriptor.size ∧
      (∀ (j : Nat) (h : GraphBuffer), scenarioCFree.get? j = some h →
        2560 ≤ h.buf.descriptor.size →
        gsel.buf.descriptor.size - 2560 < h.buf.descriptor.size - 2560 ∨
          (gsel.buf.descriptor.size - 2560 = h.buf.descriptor.size - 2560 ∧ i ≤ j))) ∧
    graph_allocate false (BufferDescriptor.new 4096 BufferUsages.standard false)
        [] initState =
      { buffer := ⟨initState.nextArc,
          (initState.pool.get_or_create
            (BufferDescriptor.new 4096 BufferUsages.standard false)).1⟩,
        free := [],
        st := ⟨(initState.pool.get_or_create
            (BufferDescriptor.new 4096 BufferUsages.standard false)).2,
          initState.nextArc + 1⟩ } :=
  ⟨graph_allocate_best_fit.1 (BufferDescriptor.new 2560 BufferUsages.standard false)
      scenarioCFree initState 2 (gbOf 12 3072) rfl (by decide),
   graph_allocate_best_fit.2.1 (BufferDescriptor.new 4096 BufferUsages.standard false)
      [] initState (by simp)⟩

/-- Removing a different key leaves lookups unchanged. -/
theorem assignGet_removeKey_ne (a : List (TensorId × GraphBuffer)) (k j : TensorId)
    (h : j ≠ k) : assignGet (removeKey a k) j = assignGet a j := by
  induction a with
  | nil => rfl
  | cons p rest ih =>
    simp only [removeKey, assignGet]
    by_cases hp : p.1 = k
    · rw [if_pos hp, ih]
      rw [if_neg (show ¬ p.1 = j by intro hpj; apply h; rw [← hpj, hp])]
    · rw [if_neg hp]
      simp only [assignGet]
      by_cases hj : p.1 = j
      · rw [if_pos hj, if_pos hj]
      · rw [if_neg hj, if_neg hj, ih]

/-- Inserting binds the inserted key. -/
theorem assignGet_insert_self (a : List (TensorId × GraphBuffer)) (k : TensorId)
    (v : GraphBuffer) : assignGet (assignInsert a k v) k = some v := by
  simp [assignInsert, assignGet]

/-- Inserting leaves other keys unchanged. -/
theorem assignGet_insert_ne (a : List (TensorId × GraphBuffer)) (k : TensorId)
    (v : GraphBuffer) (j : TensorId) (h : j ≠ k) :
    assignGet (assignInsert a k v) j = assignGet a j := by
  simp only [assignInsert, assignGet]
  rw [if_neg (fun hk => h hk.symm), assignGet_removeKey_ne a k j h]

/-- Key membership survives an insert. -/
theorem hasKey_insert_mono (a : List (TensorId × GraphBuffer)) (k : TensorId)
    (v : GraphBuffer) (j : TensorId) (h : hasKey a j = true) :
    hasKey (assignInsert a k v) j = true := by
  by_cases hj : j = k
  · subst hj
    simp [hasKey, assignGet_insert_self]
  · simp only [hasKey] at h ⊢
    rw [assignGet_insert_ne a k v j hj]
    exact h

/-- The inserted key is a member. -/
theorem hasKey_insert_self (a : List (TensorId × GraphBuffer)) (k : TensorId)
    (v : GraphBuffer) : hasKey (assignInsert a k v) k = true := by
  simp [hasKey, assignGet_insert_self]

/-- C1 counterexample: in the output-seeding step, when the graph output
is an in-place op with one consumer so that its true source is the
distinct tensor `exLeafA`, and that source has no assignment, the freshly
allocated buffer is recorded under the output's id only — the true
source's id stays unassigned, contrary to the claim that the buffer is
recorded under both. -/
theorem seedOutput_not_recorded_under_true_source :
    (determine_tensor_source exInplaceOut).map Tensor.tid = some exLeafA.tid ∧
    exLeafA.tid ≠ exInplaceOut.tid ∧
    assignGet (stepAssignments (seedOutput false exInplaceOut [] [] initState))
      exLeafA.tid = none ∧
    (assignGet (stepAssignments (seedOutput false exInplaceOut [] [] initState))
      exInplaceOut.tid).isSome = true := by
  decide

/-- C1 amended: when the true source of the graph output has no existing
assignment, the output-seeding step obtains via `graph_allocate` a buffer
of size `output_source.num_bytes()` with the standard usage preset and
records it in the assignments under the output's TensorId **only**; the
true source's TensorId (when distinct from the output's) remains without
an entry after this step. -/
theorem seedOutput_unassigned_source (debug : Bool) (output osrc : Tensor)
    (assignments : List (TensorId × GraphBuffer)) (free : List GraphBuffer)
    (st : AllocState)
    (hdet : determine_tensor_source output = some osrc)
    (hnone : assignGet assignments osrc.tid = none) :
    seedOutput debug output assignments free st =
      .ok (assignInsert assignments output.tid
            (graph_allocate debug
              (BufferDescriptor.new osrc.numBytes BufferUsages.standard false)
              free st).buffer,
          (graph_allocate debug
            (BufferDescriptor.new osrc.numBytes BufferUsages.standard false)
            free st).free,
          (graph_allocate debug
            (BufferDescriptor.new osrc.numBytes BufferUsages.standard false)
            free st).st) ∧
    (osrc.tid ≠ output.tid →
      assignGet (assignInsert assignments output.tid
        (graph_allocate debug
          (BufferDescriptor.new osrc.numBytes BufferUsages.standard false)
          free st).buffer) osrc.tid = none) := by
  constructor
  · simp only [seedOutput, hdet, hnone]
  · intro hne
    rw [assignGet_insert_ne assignments output.tid _ osrc.tid hne]
    exact hnone

/-- Witness for the C1 amended theorem at the concrete in-place output
over the empty assignments map. -/
theorem seedOutput_unassigned_source_witness :
    seedOutput false exInplaceOut [] [] initState =
      .ok (assignInsert [] exInplaceOut.tid
            (graph_allocate false
              (BufferDescriptor.new exLeafA.numBytes BufferUsages.standard false)
              [] initState).buffer,
          (graph_allocate false
            (BufferDescriptor.new exLeafA.numBytes BufferUsages.standard false)
            [] initState).free,
          (graph_allocate false
            (BufferDescriptor.new exLeafA.numBytes BufferUsages.standard false)
            [] initState).st) ∧
    assignGet (assignInsert [] exInplaceOut.tid
      (graph_allocate false
        (BufferDescriptor.new exLeafA.numBytes BufferUsages.standard false)
        [] initState).buffer) exLeafA.tid = none := by
  have h := seedOutput_unassigned_source false exInplaceOut exLeafA [] [] initState rfl rfl
  exact ⟨h.1, h.2 (by decide)⟩

/-- Shared stopping lemma for the in-place traversal: a tensor whose op
does not support in-place, or which has more than one consumer, is its own
true source. -/
theorem determine_stop (t : Tensor)
    (h : t.supportsInplace = false ∨ 1 < t.strongCount) :
    determine_tensor_source t = some t := by
  cases t with
  | mk tid r inp sc nb st srcs =>
    simp only [Tensor.supportsInplace, Tensor.strongCount] at h
    rcases h with h | h
    · subst h
      simp [determine_tensor_source.eq_def]
    · simp [determine_tensor_source.eq_def, Nat.lt_irrefl, h]

/-- C8 counterexample: in the single-tensor graph, the output's freshly
allocated buffer has reference count 1 after its (empty) source loop, so
it is pushed into the free list: the returned free list holds a
GraphBuffer that is also keyed in the assignments as the graph output's
buffer. -/
theorem output_buffer_released_to_free :
    (allocate_cfg false initState [exSoloOut]).isOk = true ∧
    freeSharesBuffer (allocate_cfg false initState [exSoloOut]) exSoloOut.tid = true := by
  decide

/-- C8 amended: the graph output's buffer is released into the graph-local
free list exactly like any other tensor's buffer — when its reference
count is 1 after the output's sources are processed — and may remain in
the final free list: for every source-less, non-in-place, non-resolved
single-tensor graph, the returned free list consists of exactly the
buffer assigned to the output. -/
theorem allocate_cfg_single_tensor_output_freed (debug : Bool) (st : AllocState)
    (t : Tensor) (h1 : t.resolved = false) (h2 : t.srcs = [])
    (h3 : t.supportsInplace = false) :
    allocate_cfg debug st [t] =
      .ok [(t.tid, ⟨st.nextArc, (st.pool.get_or_create
              (BufferDescriptor.new t.numBytes BufferUsages.standard false)).1⟩)]
          [⟨st.nextArc, (st.pool.get_or_create
              (BufferDescriptor.new t.numBytes BufferUsages.standard false)).1⟩]
          ⟨(st.pool.get_or_create
              (BufferDescriptor.new t.numBytes BufferUsages.standard false)).2,
            st.nextArc + 1⟩ := by
  have hdet := determine_stop t (Or.inl h3)
  have hga : graph_allocate debug
      (BufferDescriptor.new t.numBytes BufferUsages.standard false) [] st =
      { buffer := ⟨st.nextArc, (st.pool.get_or_create
            (BufferDescriptor.new t.numBytes BufferUsages.standard false)).1⟩,
        free := [],
        st := ⟨(st.pool.get_or_create
            (BufferDescriptor.new t.numBytes BufferUsages.standard false)).2,
          st.nextArc + 1⟩ } := by
    cases debug <;> rfl
  have hseed : seedConstsAux st [] [t] = .ok ([], st) := by
    simp [seedConstsAux, h1]
  have hso : seedOutput debug t [] [] st =
      .ok ([(t.tid, ⟨st.nextArc, (st.pool.get_or_create
              (BufferDescriptor.new t.numBytes BufferUsages.standard false)).1⟩)],
          [],
          ⟨(st.pool.get_or_create
              (BufferDescriptor.new t.numBytes BufferUsages.standard false)).2,
            st.nextArc + 1⟩) := by
    simp [seedOutput, hdet, assignGet, hga, assignInsert, removeKey]
  have hmw : mainWalkAux debug
      [(t.tid, ⟨st.nextArc, (st.pool.get_or_create
          (BufferDescriptor.new t.numBytes BufferUsages.standard false)).1⟩)]
      []
      ⟨(st.pool.get_or_create
          (BufferDescriptor.new t.numBytes BufferUsages.standard false)).2,
        st.nextArc + 1⟩ [t] =
      .ok ([(t.tid, ⟨st.nextArc, (st.pool.get_or_create
              (BufferDescriptor.new t.numBytes BufferUsages.standard false)).1⟩)],
          [⟨st.nextArc, (st.pool.get_or_create
              (BufferDescriptor.new t.numBytes BufferUsages.standard false)).1⟩],
          ⟨(st.pool.get_or_create
              (BufferDescriptor.new t.numBytes BufferUsages.standard false)).2,
            st.nextArc + 1⟩) := by
    simp [mainWalkAux, h1, h2, processSources, assignGet, graphStrongCount]
  simp [allocate_cfg, hseed, hso, hmw]

/-- Witness for the C8 amended theorem at the concrete single-tensor
graph over the empty pool. -/
theorem allocate_cfg_single_tensor_output_freed_witness :
    allocate_cfg false initState [exSoloOut] =
      .ok [(exSoloOut.tid, ⟨initState.nextArc, (initState.pool.get_or_create
              (BufferDescriptor.new exSoloOut.numBytes BufferUsages.standard false)).1⟩)]
          [⟨initState.nextArc, (initState.pool.get_or_create
              (BufferDescriptor.new exSoloOut.numBytes BufferUsages.standard false)).1⟩]
          ⟨(initState.pool.get_or_create
              (BufferDescriptor.new exSoloOut.numBytes BufferUsages.standard false)).2,
            initState.nextArc + 1⟩ :=
  allocate_cfg_single_tensor_output_freed false initState exSoloOut rfl rfl rfl

/-- The per-tensor source loop only ever inserts: key membership in the
assignments is preserved. -/
theorem processSources_mono (debug : Bool) :
    ∀ (srcs : List Tensor) (a : List (TensorId × GraphBuffer)) (f : List GraphBuffer)
      (s : AllocState) (a2 : List (TensorId × GraphBuffer)) (f2 : List GraphBuffer)
      (s2 : AllocState),
      processSources debug a f s srcs = .ok (a2, f2, s2) →
      ∀ j, hasKey a j = true → hasKey a2 j = true := by
  intro srcs
  induction srcs with
  | nil =>
    intro a f s a2 f2 s2 h j hj
    simp only [processSources] at h
    injection h with h
    rw [Prod.mk.injEq, Prod.mk.injEq] at h
    obtain ⟨rfl, rfl, rfl⟩ := h
    exact hj
  | cons source rest ih =>
    intro a f s a2 f2 s2 h j hj
    cases hdet : determine_tensor_source source with
    | none =>
      simp only [processSources, hdet] at h
      exact StepRes.noConfusion h
    | some ts =>
      simp only [processSources, hdet] at h
      cases hget : assignGet a ts.tid with
      | some ja0 =>
        simp only [hget] at h
        by_cases hne : ts.tid ≠ source.tid
        · rw [if_pos hne] at h
          exact ih _ _ _ _ _ _ h j (hasKey_insert_mono _ _ _ _ hj)
        · rw [if_neg hne] at h
          exact ih _ _ _ _ _ _ h j hj
      | none =>
        simp only [hget, assignGet_insert_self] at h
        by_cases hne : ts.tid ≠ source.tid
        · rw [if_pos hne] at h
          exact ih _ _ _ _ _ _ h j
            (hasKey_insert_mono _ _ _ _ (hasKey_insert_mono _ _ _ _ hj))
        · rw [if_neg hne] at h
          exact ih _ _ _ _ _ _ h j (hasKey_insert_mono _ _ _ _ hj)

/-- After a successful source loop, every processed source has an entry in
the assignments (under its own id, via the alias insert when its true
source differs). -/
theorem processSources_covers (debug : Bool) :
    ∀ (srcs : List Tensor) (a : List (TensorId × GraphBuffer)) (f : List GraphBuffer)
      (s : AllocState) (a2 : List (TensorId × GraphBuffer)) (f2 : List GraphBuffer)
      (s2 : AllocState),
      processSources debug a f s srcs = .ok (a2, f2, s2) →
      ∀ u ∈ srcs, hasKey a2 u.tid = true := by
  intro srcs
  induction srcs with
  | nil =>
    intro a f s a2 f2 s2 h u hu
    simp at hu
  | cons source rest ih =>
    intro a f s a2 f2 s2 h u hu
    cases hdet : determine_tensor_source source with
    | none =>
      simp only [processSources, hdet] at h
      exact StepRes.noConfusion h
    | some ts =>
      simp only [processSources, hdet] at h
      rcases List.mem_cons.mp hu with rfl | hu2
      · cases hget : assignGet a ts.tid with
        | some ja0 =>
          simp only [hget] at h
          by_cases hne : ts.tid ≠ u.tid
          · rw [if_pos hne] at h
            exact processSources_mono debug rest _ _ _ _ _ _ h u.tid
              (hasKey_insert_self _ _ _)
          · rw [if_neg hne] at h
            push_neg at hne
            refine processSources_mono debug rest _ _ _ _ _ _ h u.tid ?_
            rw [← hne]
            simp [hasKey, hget]
        | none =>
          simp only [hget, assignGet_insert_self] at h
          by_cases hne : ts.tid ≠ u.tid
          · rw [if_pos hne] at h
            exact processSources_mono debug rest _ _ _ _ _ _ h u.tid
              (hasKey_insert_self _ _ _)
          · rw [if_neg hne] at h
            push_neg at hne
            refine processSources_mono debug rest _ _ _ _ _ _ h u.tid ?_
            rw [← hne]
            exact hasKey_insert_self _ _ _
      · cases hget : assignGet a ts.tid with
        | some ja0 =>
          simp only [hget] at h
          by_cases hne : ts.tid ≠ source.tid
          · rw [if_pos hne] at h
            exact ih _ _ _ _ _ _ h u hu2
          · rw [if_neg hne] at h
            exact ih _ _ _ _ _ _ h u hu2
        | none =>
          simp only [hget, assignGet_insert_self] at h
          by_cases hne : ts.tid ≠ source.tid
          · rw [if_pos hne] at h
            exact ih _ _ _ _ _ _ h u hu2
          · rw [if_neg hne] at h
            exact ih _ _ _ _ _ _ h u hu2

/-- The main reverse walk never removes assignments: key membership is
preserved (the release step touches only the free list). -/
theorem mainWalkAux_mono (debug : Bool) :
    ∀ (ts : List Tensor) (a : List (TensorId × GraphBuffer)) (f : List GraphBuffer)
      (s : AllocState) (a2 : List (TensorId × GraphBuffer)) (f2 : List GraphBuffer)
      (s2 : AllocState),
      mainWalkAux debug a f s ts = .ok (a2, f2, s2) →
      ∀ j, hasKey a j = true → hasKey a2 j = true := by
  intro ts
  induction ts with
  | nil =>
    intro a f s a2 f2 s2 h j hj
    simp only [mainWalkAux] at h
    injection h with h
    rw [Prod.mk.injEq, Prod.mk.injEq] at h
    obtain ⟨rfl, rfl, rfl⟩ := h
    exact hj
  | cons t rest ih =>
    intro a f s a2 f2 s2 h j hj
    cases hres : t.resolved with
    | true =>
      simp only [mainWalkAux, hres, if_true] at h
      exact ih _ _ _ _ _ _ h j hj
    | false =>
      simp only [mainWalkAux, hres, Bool.false_eq_true, if_false] at h
      cases hps : processSources debug a f s t.srcs with
      | err e =>
        rw [hps] at h
        exact StepRes.noConfusion h
      | panicked =>
        rw [hps] at h
        exact StepRes.noConfusion h
      | ok x =>
        obtain ⟨a1, f1, s1⟩ := x
        rw [hps] at h
        simp only at h
        exact ih _ _ _ _ _ _ h j
          (processSources_mono debug t.srcs a f s a1 f1 s1 hps j hj)

/-- After a successful main walk, every source of every non-resolved
walked tensor has an entry in the final assignments. -/
theorem mainWalkAux_covers (debug : Bool) :
    ∀ (ts : List Tensor) (a : List (TensorId × GraphBuffer)) (f : List GraphBuffer)
      (s : AllocState) (a2 : List (TensorId × GraphBuffer)) (f2 : List GraphBuffer)
      (s2 : AllocState),
      mainWalkAux debug a f s ts = .ok (a2, f2, s2) →
      ∀ t ∈ ts, t.resolved = false → ∀ u ∈ t.srcs, hasKey a2 u.tid = true := by
  intro ts
  induction ts with
  | nil =>
    intro a f s a2 f2 s2 h t ht
    simp at ht
  | cons hd rest ih =>
    intro a f s a2 f2 s2 h t ht htres u hu
    rcases List.mem_cons.mp ht with rfl | ht2
    · simp only [mainWalkAux, htres, Bool.false_eq_true, if_false] at h
      cases hps : processSources debug a f s t.srcs with
      | err e =>
        rw [hps] at h
        exact StepRes.noConfusion h
      | panicked =>
        rw [hps] at h
        exact StepRes.noConfusion h
      | ok x =>
        obtain ⟨a1, f1, s1⟩ := x
        rw [hps] at h
        simp only at h
        exact mainWalkAux_mono debug rest _ _ _ _ _ _ h u.tid
          (processSources_covers debug t.srcs a f s a1 f1 s1 hps u hu)
    · cases hres : hd.resolved with
      | true =>
        simp only [mainWalkAux, hres, if_true] at h
        exact ih _ _ _ _ _ _ h t ht2 htres u hu
      | false =>
        simp only [mainWalkAux, hres, Bool.false_eq_true, if_false] at h
        cases hps : processSources debug a f s hd.srcs with
        | err e =>
          rw [hps] at h
          exact StepRes.noConfusion h
        | panicked =>
          rw [hps] at h
          exact StepRes.noConfusion h
        | ok x =>
          obtain ⟨a1, f1, s1⟩ := x
          rw [hps] at h
          simp only at h
          exact ih _ _ _ _ _ _ h t ht2 htres u hu

/-- Constant seeding never removes assignments. -/
theorem seedConstsAux_mono :
    ∀ (ts : List Tensor) (st : AllocState) (a a2 : List (TensorId × GraphBuffer))
      (st2 : AllocState),
      seedConstsAux st a ts = .ok (a2, st2) →
      ∀ j, hasKey a j = true → hasKey a2 j = true := by
  intro ts
  induction ts with
  | nil =>
    intro st a a2 st2 h j hj
    simp only [seedConstsAux] at h
    injection h with h
    rw [Prod.mk.injEq] at h
    obtain ⟨rfl, rfl⟩ := h
    exact hj
  | cons t rest ih =>
    intro st a a2 st2 h j hj
    cases hres : t.resolved with
    | false =>
      simp only [seedConstsAux, hres, Bool.false_eq_true, if_false] at h
      exact ih _ _ _ _ h j hj
    | true =>
      simp only [seedConstsAux, hres, if_true] at h
      cases hst : t.storage with
      | none =>
        rw [hst] at h
        exact StepRes.noConfusion h
      | some stor =>
        cases stor with
        | cpu =>
          rw [hst] at h
          exact StepRes.noConfusion h
        | gpu b =>
          rw [hst] at h
          simp only at h
          exact ih _ _ _ _ h j (hasKey_insert_mono _ _ _ _ hj)

/-- After successful constant seeding, every resolved tensor of the walked
list has an entry. -/
theorem seedConstsAux_covers :
    ∀ (ts : List Tensor) (st : AllocState) (a a2 : List (TensorId × GraphBuffer))
      (st2 : AllocState),
      seedConstsAux st a ts = .ok (a2, st2) →
      ∀ t ∈ ts, t.resolved = true → hasKey a2 t.tid = true := by
  intro ts
  induction ts with
  | nil =>
    intro st a a2 st2 h t ht
    simp at ht
  | cons hd rest ih =>
    intro st a a2 st2 h t ht htres
    rcases List.mem_cons.mp ht with rfl | ht2
    · simp only [seedConstsAux, htres, if_true] at h
      cases hst : t.storage with
      | none =>
        rw [hst] at h
        exact StepRes.noConfusion h
      | some stor =>
        cases stor with
        | cpu =>
          rw [hst] at h
          exact StepRes.noConfusion h
        | gpu b =>
          rw [hst] at h
          simp only at h
          exact seedConstsAux_mono rest _ _ _ _ h t.tid (hasKey_insert_self _ _ _)
    · cases hres : hd.resolved with
      | false =>
        simp only [seedConstsAux, hres, Bool.false_eq_true, if_false] at h
        exact ih _ _ _ _ h t ht2 htres
      | true =>
        simp only [seedConstsAux, hres, if_true] at h
        cases hst : hd.storage with
        | none =>
          rw [hst] at h
          exact StepRes.noConfusion h
        | some stor =>
          cases stor with
          | cpu =>
            rw [hst] at h
            exact StepRes.noConfusion h
          | gpu b =>
            rw [hst] at h
            simp only at h
            exact ih _ _ _ _ h t ht2 htres

/-- Output seeding never removes assignments. -/
theorem seedOutput_mono (debug : Bool) (output : Tensor)
    (a : List (TensorId × GraphBuffer)) (f : List GraphBuffer) (st : AllocState)
    (a2 : List (TensorId × GraphBuffer)) (f2 : List GraphBuffer) (st2 : AllocState)
    (h : seedOutput debug output a f st = .ok (a2, f2, st2)) :
    ∀ j, hasKey a j = true → hasKey a2 j = true := by
  intro j hj
  cases hdet : determine_tensor_source output with
  | none =>
    simp only [seedOutput, hdet] at h
    exact StepRes.noConfusion h
  | some osrc =>
    simp only [seedOutput, hdet] at h
    cases hget : assignGet a osrc.tid with
    | some gb =>
      rw [hget] at h
      simp only at h
      injection h with h
      rw [Prod.mk.injEq, Prod.mk.injEq] at h
      obtain ⟨rfl, rfl, rfl⟩ := h
      exact hasKey_insert_mono _ _ _ _ hj
    | none =>
      rw [hget] at h
      simp only at h
      injection h with h
      rw [Prod.mk.injEq, Prod.mk.injEq] at h
      obtain ⟨rfl, rfl, rfl⟩ := h
      exact hasKey_insert_mono _ _ _ _ hj

/-- Output seeding binds the output's id. -/
theorem seedOutput_covers (debug : Bool) (output : Tensor)
    (a : List (TensorId × GraphBuffer)) (f : List GraphBuffer) (st : AllocState)
    (a2 : List (TensorId × GraphBuffer)) (f2 : List GraphBuffer) (st2 : AllocState)
    (h : seedOutput debug output a f st = .ok (a2, f2, st2)) :
    hasKey a2 output.tid = true := by
  cases hdet : determine_tensor_source output with
  | none =>
    simp only [seedOutput, hdet] at h
    exact StepRes.noConfusion h
  | some osrc =>
    simp only [seedOutput, hdet] at h
    cases hget : assignGet a osrc.tid with
    | some gb =>
      rw [hget] at h
      simp only at h
      injection h with h
      rw [Prod.mk.injEq, Prod.mk.injEq] at h
      obtain ⟨rfl, rfl, rfl⟩ := h
      exact hasKey_insert_self _ _ _
    | none =>
      rw [hget] at h
      simp only at h
      injection h with h
      rw [Prod.mk.injEq, Prod.mk.injEq] at h
      obtain ⟨rfl, rfl, rfl⟩ := h
      exact hasKey_insert_self _ _ _

/-- C2 counterexample: a valid execution order (sources before consumers,
last element the output) containing a dead tensor — one that is neither
resolved, nor the output, nor a source of any tensor — yields assignments
with no entry for that tensor's id, although the run returns normally. -/
theorem dead_tensor_missing_from_assignments :
    validOrderB [exDeadA, exPlainOut] = true ∧
    List.map Tensor.tid [exDeadA, exPlainOut] = [1, 2] ∧
    (allocate_cfg false initState [exDeadA, exPlainOut]).isOk = true ∧
    hasKey (allocate_cfg false initState [exDeadA, exPlainOut]).assignmentsOf 1 = false := by
  decide

/-- C2 amended: for every valid execution order, the returned assignments
contain an entry for every tensor of the order that is resolved, or is the
graph output (the last element), or occurs among the sources of some
non-resolved tensor of the order.  (A tensor satisfying none of these —
a dead tensor, or one consumed only by resolved tensors — may be absent.) -/
theorem allocate_cfg_covers (debug : Bool) (st : AllocState) (eo : List Tensor)
    (a : List (TensorId × GraphBuffer)) (f : List GraphBuffer) (s2 : AllocState)
    (hok : allocate_cfg debug st eo = .ok a f s2)
    (hvalid : validOrderB eo = true)
    (t : Tensor) (ht : t ∈ eo)
    (hcov : t.resolved = true ∨ eo.getLast? = some t ∨
      ∃ u, u ∈ eo ∧ u.resolved = false ∧ t ∈ u.srcs) :
    hasKey a t.tid = true := by
  simp only [allocate_cfg] at hok
  cases hsc : seedConstsAux st [] eo.reverse with
  | err e =>
    rw [hsc] at hok
    exact AllocOutcome.noConfusion hok
  | panicked =>
    rw [hsc] at hok
    exact AllocOutcome.noConfusion hok
  | ok x =>
    obtain ⟨a0, st0⟩ := x
    rw [hsc] at hok
    simp only at hok
    cases hlast : eo.getLast? with
    | none =>
      rw [hlast] at hok
      exact AllocOutcome.noConfusion hok
    | some output =>
      rw [hlast] at hok
      simp only at hok
      cases hso : seedOutput debug output a0 [] st0 with
      | err e =>
        rw [hso] at hok
        exact AllocOutcome.noConfusion hok
      | panicked =>
        rw [hso] at hok
        exact AllocOutcome.noConfusion hok
      | ok y =>
        obtain ⟨a1, f1, st1⟩ := y
        rw [hso] at hok
        simp only at hok
        cases hmw : mainWalkAux debug a1 f1 st1 eo.reverse with
        | err e =>
          rw [hmw] at hok
          exact AllocOutcome.noConfusion hok
        | panicked =>
          rw [hmw] at hok
          exact AllocOutcome.noConfusion hok
        | ok z =>
          obtain ⟨a2, f2, s2x⟩ := z
          rw [hmw] at hok
          simp only at hok
          injection hok with h1 h2 h3
          subst h1
          rcases hcov with hres | hout | ⟨u, hu, hures, htu⟩
          · have hk0 := seedConstsAux_covers eo.reverse st [] a0 st0 hsc t
              (List.mem_reverse.mpr ht) hres
            have hk1 := seedOutput_mono debug output a0 [] st0 a1 f1 st1 hso t.tid hk0
            exact mainWalkAux_mono debug eo.reverse a1 f1 st1 a2 f2 s2x hmw t.tid hk1
          · rw [hlast] at hout
            injection hout with hout
            subst hout
            have hk1 := seedOutput_covers debug output a0 [] st0 a1 f1 st1 hso
            exact mainWalkAux_mono debug eo.reverse a1 f1 st1 a2 f2 s2x hmw output.tid hk1
          · exact mainWalkAux_covers debug eo.reverse a1 f1 st1 a2 f2 s2x hmw u
              (List.mem_reverse.mpr hu) hures t htu

/-- Witness for the C2 amended theorem: the output of the two-tensor dead
graph is covered (it is the last element), and the run computes to the
stated value. -/
theorem allocate_cfg_covers_witness :
    allocate_cfg false initState [exDeadA, exPlainOut] =
      .ok [(2, ⟨0, ⟨0, ⟨4, BufferUsages.standard, false⟩⟩⟩)]
          [⟨0, ⟨0, ⟨4, BufferUsages.standard, false⟩⟩⟩]
          ⟨⟨[], [(0, ⟨0, ⟨4, BufferUsages.standard, false⟩⟩)], 1⟩, 1⟩ ∧
    hasKey [(2, ⟨0, ⟨0, ⟨4, BufferUsages.standard, false⟩⟩⟩)] exPlainOut.tid = true := by
  have h1 : allocate_cfg false initState [exDeadA, exPlainOut] =
      .ok [(2, ⟨0, ⟨0, ⟨4, BufferUsages.standard, false⟩⟩⟩)]
          [⟨0, ⟨0, ⟨4, BufferUsages.standard, false⟩⟩⟩]
          ⟨⟨[], [(0, ⟨0, ⟨4, BufferUsages.standard, false⟩⟩)], 1⟩, 1⟩ := by
    decide
  refine ⟨h1, ?_⟩
  exact allocate_cfg_covers false initState [exDeadA, exPlainOut] _ _ _ h1 (by decide)
    exPlainOut (List.mem_cons_of_mem _ (List.mem_cons_self _ _))
    (Or.inr (Or.inl rfl))
